import Mathlib

/-!
Verification of the jgsa-report aggregation and ranking engine.

The definitions below are shallow embeddings of the Python functions in
`analyze_district_kpis.py`, `utils.py`, `analyze_old_works.py`,
`analyze_farm_ponds.py` and `jsm_dashboard_generator.py`.  Python floats are
idealised as exact rationals (`ℚ`); the NaN / +Infinity / -Infinity values a
float may carry are modelled by dedicated constructors, since the code under
verification inspects them explicitly (`math.isnan`, `math.isinf`).
-/

namespace JgsaReport

/-- A Python numeric value (`int` or `float`).  Finite values are idealised as
exact rationals; NaN and the two infinities are separate constructors because
the source code branches on them. -/
inductive PyNum where
  | fin (q : ℚ)
  | nan
  | inf
  | ninf
deriving DecidableEq, Repr

/-- An arbitrary Python value as classified by the behaviour the analysed code
can observe: a genuine number (`isinstance(v, (int, float))` holds), a string
that `float()` parses to the given numeric value, or any other value (for
which `isinstance` fails and `float()` raises). -/
inductive PyVal where
  | num (x : PyNum)
  | strNum (x : PyNum)
  | other
deriving DecidableEq, Repr

/-- Round-half-to-even on exact rationals, mirroring Python's `round` for
floats (ties go to the even integer). -/
def roundHalfEven (q : ℚ) : ℤ :=
  let f : ℤ := ⌊q⌋
  let r : ℚ := q - f
  if r < 1/2 then f
  else if 1/2 < r then f + 1
  else if f % 2 = 0 then f else f + 1

/-- `round(x, 2)` from the source, idealised over exact rationals. -/
def roundTo2 (q : ℚ) : ℚ := (roundHalfEven (q * 100) : ℚ) / 100

/-- `_safe_convert(value, float, None)` from `analyze_district_kpis.py`
(lines 102-113): `None` maps to the default (`none`), a conversion that raises
maps to the default, and a converted float that is NaN or ±Infinity maps to
the default; otherwise the finite float value is returned. -/
def pyFloatOf : Option PyVal → Option ℚ
  | none => none
  | some (PyVal.num (PyNum.fin q)) => some q
  | some (PyVal.num _) => none
  | some (PyVal.strNum (PyNum.fin q)) => some q
  | some (PyVal.strNum _) => none
  | some PyVal.other => none

/-- `_calculate_change(current_val, previous_val)` from
`analyze_district_kpis.py` (lines 321-340).  Both inputs are coerced to float
with `_safe_convert(·, float, None)`; if either coercion yields `None` the
result is `None`.  Otherwise the difference is returned as a Python `int`
when it is integral (`change == int(change)`) and as `round(change, 2)`
otherwise.  (The `math.isnan`/`math.isinf` re-check on the difference can
never fire for exact rationals and is therefore absent.) -/
def calculate_change (current_val previous_val : Option PyVal) : Option (ℤ ⊕ ℚ) :=
  match pyFloatOf current_val, pyFloatOf previous_val with
  | some num_current, some num_previous =>
    let change := num_current - num_previous
    if change.den = 1 then some (Sum.inl change.num)
    else some (Sum.inr (roundTo2 change))
  | _, _ => none

/-- `_calculate_rank_change(current_rank, previous_rank)` from
`analyze_district_kpis.py` (lines 342-350): `None` if either rank is `None`,
otherwise `previous_rank - current_rank` (ranks are ints, so the
`int(...)` casts never raise). -/
def calculate_rank_change (current_rank previous_rank : Option ℤ) : Option ℤ :=
  match current_rank, previous_rank with
  | some c, some p => some (p - c)
  | _, _ => none

/-- C5: the day-over-day delta returns null whenever either input fails
coercion to a finite float (in particular `delta(x, null) = null` and
`delta(null, y) = null`), and otherwise returns `current - previous`, as an
integer when the difference is whole and rounded to two decimals when it is
fractional. -/
theorem calculate_change_spec :
    (∀ x, calculate_change x none = none) ∧
    (∀ y, calculate_change none y = none) ∧
    (∀ c p, pyFloatOf c = none ∨ pyFloatOf p = none → calculate_change c p = none) ∧
    (∀ c p x y, pyFloatOf c = some x → pyFloatOf p = some y →
      ((x - y).den = 1 → calculate_change c p = some (Sum.inl (x - y).num)) ∧
      ((x - y).den ≠ 1 → calculate_change c p = some (Sum.inr (roundTo2 (x - y))))) := by
  refine ⟨fun x => ?_, fun y => ?_, fun c p h => ?_, fun c p x y hc hp => ⟨fun hden => ?_, fun hden => ?_⟩⟩
  · cases hx : pyFloatOf x <;> simp [calculate_change, hx, pyFloatOf]
  · cases hy : pyFloatOf y <;> simp [calculate_change, hy, pyFloatOf]
  · rcases h with h | h
    · simp [calculate_change, h]
    · cases hc : pyFloatOf c <;> simp [calculate_change, hc, h]
  · simp [calculate_change, hc, hp, hden]
  · simp [calculate_change, hc, hp, hden]

/-- Witness for C5 at concrete inputs: `delta(12, 10) = 2` (integer) and
`delta(null, 7) = null`. -/
theorem calculate_change_spec_witness :
    calculate_change (some (PyVal.num (PyNum.fin 12))) (some (PyVal.num (PyNum.fin 10)))
        = some (Sum.inl 2) ∧
    calculate_change none (some (PyVal.num (PyNum.fin 7))) = none := by
  constructor
  · have h := (calculate_change_spec.2.2.2 (some (PyVal.num (PyNum.fin 12)))
      (some (PyVal.num (PyNum.fin 10))) 12 10 rfl rfl).1 (by norm_num)
    exact h.trans (by norm_num)
  · exact calculate_change_spec.2.1 (some (PyVal.num (PyNum.fin 7)))

/-- C8: the rank delta is null when either rank is null and otherwise equals
`previousRank - currentRank`, so a positive result means the rank number
decreased; in particular `rankDelta(5, 3) = -2`. -/
theorem calculate_rank_change_spec :
    (∀ p, calculate_rank_change none p = none) ∧
    (∀ c, calculate_rank_change c none = none) ∧
    (∀ c p, calculate_rank_change (some c) (some p) = some (p - c)) ∧
    calculate_rank_change (some 5) (some 3) = some (-2) := by
  refine ⟨fun p => rfl, fun c => ?_, fun c p => rfl, by decide⟩
  cases c <;> rfl

/-! ### Rank calculation (`calculate_ranks`, `analyze_district_kpis.py` 221-264) -/

/-- One entry of `processed_data_by_district` as `calculate_ranks` sees it: a
`name` field (always a string in this program; the empty string stands for a
falsy name) and a `total_marks` field that is either a number or `None`. -/
structure DistrictRec where
  name : String
  total_marks : Option PyNum
deriving DecidableEq, Repr

/-- The validity test of `calculate_ranks` (line 229):
`isinstance(marks, (int, float)) and not math.isnan(marks) and not
math.isinf(marks)`; returns the marks as a rational when they pass. -/
def validMarks : Option PyNum → Option ℚ
  | some (PyNum.fin q) => some q
  | _ => none

/-- The filter loop of `calculate_ranks` (lines 226-232), keeping each valid
district together with its numeric `total_marks`. -/
def validEntries (l : List DistrictRec) : List (String × ℚ) :=
  l.filterMap fun d => (validMarks d.total_marks).map fun q => (d.name, q)

/-- Stable insertion into a list sorted descending by score: the new element
goes after every element with a strictly greater score. -/
def insertDesc (x : String × ℚ) : List (String × ℚ) → List (String × ℚ)
  | [] => [x]
  | y :: ys => if x.2 < y.2 then y :: insertDesc x ys else x :: y :: ys

/-- `sorted(valid_entries, key=..., reverse=True)` (line 239): a stable sort,
descending by `total_marks`. -/
def sortDesc : List (String × ℚ) → List (String × ℚ)
  | [] => []
  | x :: xs => insertDesc x (sortDesc xs)

/-- Functional update of the `ranks` dict (`ranks[dist_name] = r`). -/
def mapUpd (m : String → Option ℕ) (k : String) (v : ℕ) : String → Option ℕ :=
  fun n => if n = k then some v else m n

/-- The rank-assignment loop of `calculate_ranks` (lines 241-258).  State:
`cr = current_rank`, `last = last_score` (`none` is the `-inf` sentinel, which
no filtered score can equal), `dar = districts_at_rank`.  A district is
entered into the dict only when its name is truthy (line 257). -/
def walkRanks : List (String × ℚ) → ℕ → Option ℚ → ℕ → (String → Option ℕ) →
    (String → Option ℕ)
  | [], _, _, _, m => m
  | (n, s) :: rest, cr, last, dar, m =>
    if some s ≠ last then
      walkRanks rest (cr + dar) (some s) 1
        (if n ≠ "" then mapUpd m n (cr + dar + 1) else m)
    else
      walkRanks rest cr last (dar + 1)
        (if n ≠ "" then mapUpd m n (cr + 1) else m)

/-- `calculate_ranks(processed_state_data)` (lines 221-264): empty input and
no-valid-entries both give the empty dict; otherwise the valid entries are
sorted descending by `total_marks` and walked with the tie-aware counter. -/
def calculate_ranks (l : List DistrictRec) : String → Option ℕ :=
  if l = [] then fun _ => none
  else if validEntries l = [] then fun _ => none
  else walkRanks (sortDesc (validEntries l)) 0 none 0 (fun _ => none)

/-! Auxiliary facts about the sort and the walk. -/

theorem insertDesc_perm (x : String × ℚ) (l : List (String × ℚ)) :
    (insertDesc x l).Perm (x :: l) := by
  induction l with
  | nil => exact List.Perm.refl _
  | cons y ys ih =>
    by_cases h : x.2 < y.2
    · simpa [insertDesc, h] using ((ih.cons y).trans (List.Perm.swap x y ys))
    · simp [insertDesc, h]

theorem sortDesc_perm (l : List (String × ℚ)) : (sortDesc l).Perm l := by
  induction l with
  | nil => exact List.Perm.refl _
  | cons x xs ih => exact (insertDesc_perm x (sortDesc xs)).trans (ih.cons x)

theorem insertDesc_pairwise (x : String × ℚ) (l : List (String × ℚ))
    (h : l.Pairwise fun a b => b.2 ≤ a.2) :
    (insertDesc x l).Pairwise fun a b => b.2 ≤ a.2 := by
  induction l with
  | nil => simp [insertDesc]
  | cons y ys ih =>
    rcases List.pairwise_cons.mp h with ⟨hy, hys⟩
    by_cases hlt : x.2 < y.2
    · simp only [insertDesc, if_pos hlt]
      refine List.pairwise_cons.mpr ⟨?_, ih hys⟩
      intro z hz
      rcases List.mem_cons.mp (((insertDesc_perm x ys).mem_iff).mp hz) with rfl | hz
      · exact le_of_lt hlt
      · exact hy z hz
    · simp only [insertDesc, if_neg hlt]
      refine List.pairwise_cons.mpr ⟨?_, h⟩
      intro z hz
      rcases List.mem_cons.mp hz with rfl | hz
      · exact le_of_not_lt hlt
      · exact le_trans (hy z hz) (le_of_not_lt hlt)

theorem sortDesc_pairwise (l : List (String × ℚ)) :
    (sortDesc l).Pairwise fun a b => b.2 ≤ a.2 := by
  induction l with
  | nil => simp [sortDesc]
  | cons x xs ih => exact insertDesc_pairwise x (sortDesc xs) ih

theorem walkRanks_not_mem (l : List (String × ℚ)) (cr : ℕ) (last : Option ℚ)
    (dar : ℕ) (m : String → Option ℕ) (n : String)
    (h : n ∉ l.map Prod.fst) : walkRanks l cr last dar m n = m n := by
  induction l generalizing cr last dar m with
  | nil => rfl
  | cons p rest ih =>
    obtain ⟨pn, ps⟩ := p
    have hn : n ≠ pn := by
      intro he; exact h (by simp [he])
    have hrest : n ∉ rest.map Prod.fst := fun hm => h (by simp [hm])
    by_cases hc : some ps ≠ last
    · rw [walkRanks, if_pos hc, ih _ _ _ _ hrest]
      by_cases hpn : pn ≠ "" <;> simp [hpn, mapUpd, hn]
    · rw [walkRanks, if_neg hc, ih _ _ _ _ hrest]
      by_cases hpn : pn ≠ "" <;> simp [hpn, mapUpd, hn]

/-- Core characterisation of the rank walk: on a descending-sorted list whose
scores are all at most `t`, with `cr` entities already processed at scores
above `t` and `dar` tied at `t`, a member `(n, s)` ends up with rank
`(cr or cr + dar) + (#strictly greater inside the list) + 1`. -/
theorem walkRanks_mem (l : List (String × ℚ)) (cr : ℕ) (t : ℚ) (dar : ℕ)
    (m : String → Option ℕ)
    (hsort : l.Pairwise fun a b => b.2 ≤ a.2)
    (hle : ∀ p ∈ l, p.2 ≤ t)
    (hnd : (l.map Prod.fst).Nodup)
    (hne : ∀ p ∈ l, p.1 ≠ "")
    {n : String} {s : ℚ} (hmem : (n, s) ∈ l) :
    walkRanks l cr (some t) dar m n =
      some ((if s = t then cr else cr + dar) +
        l.countP (fun p => decide (s < p.2)) + 1) := by
  induction l generalizing cr t dar m with
  | nil => cases hmem
  | cons p rest ih =>
    obtain ⟨pn, ps⟩ := p
    rcases List.pairwise_cons.mp hsort with ⟨hhead, hrest⟩
    have hpn : pn ≠ "" := hne (pn, ps) (by simp)
    have hndr : (rest.map Prod.fst).Nodup := (List.nodup_cons.mp hnd).2
    have hpn_not : pn ∉ rest.map Prod.fst := (List.nodup_cons.mp hnd).1
    have hcnt : List.countP (fun p => decide (s < p.2)) ((pn, ps) :: rest)
        = List.countP (fun p => decide (s < p.2)) rest + (if s < ps then 1 else 0) := by
      rw [List.countP_cons]
      by_cases hlt : s < ps <;> simp [hlt]
    by_cases hst : ps = t
    · -- tie with the running score: `current_score != last_score` is false
      subst hst
      have hcond : ¬ (some ps ≠ some ps) := by simp
      rw [walkRanks, if_neg hcond, if_pos hpn]
      rcases List.mem_cons.mp hmem with heq | hmem
      · obtain ⟨rfl, rfl⟩ := Prod.ext_iff.mp heq
        rw [walkRanks_not_mem _ _ _ _ _ _ hpn_not]
        have hcount : List.countP (fun p => decide (s < p.2)) ((n, s) :: rest) = 0 := by
          refine List.countP_eq_zero.mpr ?_
          intro p hp
          rcases List.mem_cons.mp hp with rfl | hp
          · simp
          · simpa using not_lt_of_le (hhead p hp)
        simp [mapUpd, hcount]
      · have hs_le : s ≤ ps := hhead (n, s) hmem
        have ihres := ih cr ps (dar + 1) (mapUpd m pn (cr + 1)) hrest
          (fun p hp => hle p (List.mem_cons_of_mem _ hp)) hndr
          (fun p hp => hne p (List.mem_cons_of_mem _ hp)) hmem
        rw [ihres, hcnt]
        by_cases hseq : s = ps
        · have hnlt : ¬ s < ps := by rw [hseq]; exact lt_irrefl ps
          rw [if_pos hseq, if_pos hseq, if_neg hnlt]
          refine congrArg some ?_
          omega
        · have hslt : s < ps := lt_of_le_of_ne hs_le hseq
          rw [if_neg hseq, if_neg hseq, if_pos hslt]
          refine congrArg some ?_
          omega
    · -- the score strictly dropped: `current_score != last_score` is true
      have hps_lt : ps < t := lt_of_le_of_ne (hle (pn, ps) (by simp)) hst
      have hcond : (some ps ≠ some t) := by simp [hst]
      rw [walkRanks, if_pos hcond, if_pos hpn]
      rcases List.mem_cons.mp hmem with heq | hmem
      · obtain ⟨rfl, rfl⟩ := Prod.ext_iff.mp heq
        rw [walkRanks_not_mem _ _ _ _ _ _ hpn_not]
        have hcount : List.countP (fun p => decide (s < p.2)) ((n, s) :: rest) = 0 := by
          refine List.countP_eq_zero.mpr ?_
          intro p hp
          rcases List.mem_cons.mp hp with rfl | hp
          · simp
          · simpa using not_lt_of_le (hhead p hp)
        simp [mapUpd, hst, hcount]
      · have hs_le : s ≤ ps := hhead (n, s) hmem
        have hs_ne_t : s ≠ t := ne_of_lt (lt_of_le_of_lt hs_le hps_lt)
        have ihres := ih (cr + dar) ps 1 (mapUpd m pn (cr + dar + 1)) hrest
          (fun p hp => hhead p hp) hndr
          (fun p hp => hne p (List.mem_cons_of_mem _ hp)) hmem
        rw [ihres, hcnt]
        by_cases hseq : s = ps
        · have hnlt : ¬ s < ps := by rw [hseq]; exact lt_irrefl ps
          rw [if_pos hseq, if_neg hs_ne_t, if_neg hnlt]
          refine congrArg some ?_
          omega
        · have hslt : s < ps := lt_of_le_of_ne hs_le hseq
          rw [if_neg hseq, if_neg hs_ne_t, if_pos hslt]
          refine congrArg some ?_
          omega

theorem validEntries_mem {l : List DistrictRec} {d : DistrictRec} {q : ℚ}
    (hd : d ∈ l) (hq : validMarks d.total_marks = some q) :
    (d.name, q) ∈ validEntries l :=
  List.mem_filterMap.mpr ⟨d, hd, by simp [hq]⟩

theorem validEntries_mem_inv {l : List DistrictRec} {p : String × ℚ}
    (h : p ∈ validEntries l) :
    ∃ d ∈ l, d.name = p.1 ∧ validMarks d.total_marks = some p.2 := by
  rcases List.mem_filterMap.mp h with ⟨d, hd, heq⟩
  cases hv : validMarks d.total_marks with
  | none => rw [hv] at heq; cases heq
  | some q =>
    rw [hv] at heq
    have heq2 : (d.name, q) = p := by simpa using heq
    exact ⟨d, hd, by rw [← heq2], by rw [hv, ← heq2]⟩

theorem validEntries_names_sublist (l : List DistrictRec) :
    ((validEntries l).map Prod.fst).Sublist (l.map DistrictRec.name) := by
  induction l with
  | nil => simp [validEntries]
  | cons d rest ih =>
    cases hv : validMarks d.total_marks with
    | none =>
      simp only [validEntries, List.filterMap_cons, hv, Option.map_none', List.map_cons]
      exact ih.cons _
    | some q =>
      simp only [validEntries, List.filterMap_cons, hv, Option.map_some', List.map_cons]
      exact ih.cons₂ _

theorem validEntries_countP (l : List DistrictRec) (q : ℚ) :
    (validEntries l).countP (fun p => decide (q < p.2)) =
      l.countP (fun d =>
        match validMarks d.total_marks with
        | some p => decide (q < p)
        | none => false) := by
  induction l with
  | nil => rfl
  | cons d rest ih =>
    cases hv : validMarks d.total_marks with
    | none =>
      simp only [validEntries, List.filterMap_cons, hv, Option.map_none', List.countP_cons, hv]
      simpa [hv] using ih
    | some p =>
      simp only [validEntries, List.filterMap_cons, hv, Option.map_some', List.countP_cons]
      simp only [validEntries] at ih
      rw [ih]

/-- Shared characterisation: a valid district's rank is one plus the number of
valid districts with strictly greater `total_marks`. -/
theorem calculate_ranks_valid_mem (l : List DistrictRec)
    (hnd : ((validEntries l).map Prod.fst).Nodup)
    (hne : ∀ p ∈ validEntries l, p.1 ≠ "")
    {n : String} {q : ℚ} (h : (n, q) ∈ validEntries l) :
    calculate_ranks l n =
      some (1 + (validEntries l).countP fun p => decide (q < p.2)) := by
  have hlne : l ≠ [] := by
    intro he
    rw [he] at h
    cases h
  have hvne : validEntries l ≠ [] := by
    intro he
    rw [he] at h
    cases h
  rw [calculate_ranks, if_neg hlne, if_neg hvne]
  have hperm := sortDesc_perm (validEntries l)
  have hsorted := sortDesc_pairwise (validEntries l)
  have hmem_s : (n, q) ∈ sortDesc (validEntries l) := hperm.mem_iff.mpr h
  have hnd_s : ((sortDesc (validEntries l)).map Prod.fst).Nodup :=
    ((hperm.map Prod.fst).symm).nodup hnd
  have hne_s : ∀ p ∈ sortDesc (validEntries l), p.1 ≠ "" :=
    fun p hp => hne p (hperm.mem_iff.mp hp)
  have hcntP : (sortDesc (validEntries l)).countP (fun p => decide (q < p.2)) =
      (validEntries l).countP (fun p => decide (q < p.2)) :=
    hperm.countP_eq _
  cases hs : sortDesc (validEntries l) with
  | nil => rw [hs] at hmem_s; cases hmem_s
  | cons p0 srest =>
    obtain ⟨n0, s0⟩ := p0
    rw [hs] at hmem_s hsorted hnd_s hne_s hcntP
    rcases List.pairwise_cons.mp hsorted with ⟨hhead, hsrest⟩
    have hn0 : n0 ≠ "" := hne_s (n0, s0) (by simp)
    have hn0_not : n0 ∉ srest.map Prod.fst := (List.nodup_cons.mp hnd_s).1
    have hndr : (srest.map Prod.fst).Nodup := (List.nodup_cons.mp hnd_s).2
    rw [walkRanks, if_pos (by simp), if_pos hn0]
    rcases List.mem_cons.mp hmem_s with heq | hmem_t
    · obtain ⟨rfl, rfl⟩ := Prod.ext_iff.mp heq
      rw [walkRanks_not_mem _ _ _ _ _ _ hn0_not]
      have hcount : List.countP (fun p => decide (q < p.2)) ((n, q) :: srest) = 0 := by
        refine List.countP_eq_zero.mpr ?_
        intro p hp
        rcases List.mem_cons.mp hp with rfl | hp
        · simp
        · simpa using not_lt_of_le (hhead p hp)
      rw [← hcntP, hcount]
      simp [mapUpd]
    · have hq_le : q ≤ s0 := hhead (n, q) hmem_t
      have hres := walkRanks_mem srest (0 + 0) s0 1
        (mapUpd (fun _ => none) n0 (0 + 0 + 1)) hsrest hhead hndr
        (fun p hp => hne_s p (List.mem_cons_of_mem _ hp)) hmem_t
      rw [hres, ← hcntP, List.countP_cons]
      by_cases hqs : q = s0
      · have hnlt : ¬ q < s0 := by rw [hqs]; exact lt_irrefl s0
        rw [if_pos hqs, decide_eq_false hnlt, if_neg (by decide)]
        refine congrArg some ?_
        omega
      · have hlt : q < s0 := lt_of_le_of_ne hq_le hqs
        rw [if_neg hqs, decide_eq_true hlt, if_pos rfl]
        refine congrArg some ?_
        omega

/-- Shared characterisation: a name that does not belong to any valid entry is
absent from the rank dict. -/
theorem calculate_ranks_not_valid (l : List DistrictRec) {n : String}
    (h : n ∉ (validEntries l).map Prod.fst) : calculate_ranks l n = none := by
  by_cases hl : l = []
  · rw [calculate_ranks, if_pos hl]
  · rw [calculate_ranks, if_neg hl]
    by_cases hv : validEntries l = []
    · rw [if_pos hv]
    · rw [if_neg hv]
      have hperm := (sortDesc_perm (validEntries l)).map Prod.fst
      have hns : n ∉ (sortDesc (validEntries l)).map Prod.fst :=
        fun hm => h (hperm.mem_iff.mp hm)
      rw [walkRanks_not_mem _ _ _ _ _ _ hns]

/-- C1: on a collection of district records (distinct, non-empty names, as the
name-keyed dict that feeds `calculate_ranks` guarantees), the returned dict
assigns to exactly the districts whose `total_marks` is a non-null, non-NaN,
non-infinite number the rank `1 + #(valid districts with strictly greater
total_marks)`; every other name is absent. -/
theorem calculate_ranks_spec (l : List DistrictRec)
    (hnd : (l.map DistrictRec.name).Nodup)
    (hne : ∀ d ∈ l, d.name ≠ "") :
    (∀ d ∈ l, ∀ q, validMarks d.total_marks = some q →
      calculate_ranks l d.name =
        some (1 + l.countP fun d' =>
          match validMarks d'.total_marks with
          | some p => decide (q < p)
          | none => false)) ∧
    (∀ d ∈ l, validMarks d.total_marks = none → calculate_ranks l d.name = none) ∧
    (∀ n, (∀ d ∈ l, d.name ≠ n) → calculate_ranks l n = none) := by
  have hnd' : ((validEntries l).map Prod.fst).Nodup :=
    (validEntries_names_sublist l).nodup hnd
  have hne' : ∀ p ∈ validEntries l, p.1 ≠ "" := by
    intro p hp
    rcases validEntries_mem_inv hp with ⟨d, hd, hname, _⟩
    rw [← hname]
    exact hne d hd
  refine ⟨fun d hd q hq => ?_, fun d hd hq => ?_, fun n hn => ?_⟩
  · rw [calculate_ranks_valid_mem l hnd' hne' (validEntries_mem hd hq),
      validEntries_countP]
  · refine calculate_ranks_not_valid l ?_
    intro hmem
    rcases List.mem_map.mp hmem with ⟨p, hp, hp1⟩
    rcases validEntries_mem_inv hp with ⟨d', hd', hname, hvalid⟩
    have hdd : d' = d := by
      have hinj := List.inj_on_of_nodup_map hnd
      exact hinj hd' hd (by rw [hname, hp1])
    rw [hdd, hq] at hvalid
    cases hvalid
  · refine calculate_ranks_not_valid l ?_
    intro hmem
    rcases List.mem_map.mp hmem with ⟨p, hp, hp1⟩
    rcases validEntries_mem_inv hp with ⟨d', hd', hname, _⟩
    exact hn d' hd' (by rw [hname, hp1])

/-- Districts used by the rank witnesses: the `[10, 10, 8]` tie scenario plus
a district with a failed (`None`) total. -/
def demoDistricts : List DistrictRec :=
  [⟨"ALPHA", some (PyNum.fin 10)⟩, ⟨"BETA", some (PyNum.fin 10)⟩,
   ⟨"GAMMA", some (PyNum.fin 8)⟩, ⟨"DELTA", none⟩]

/-- Witness for C1: scores `[10, 10, 8]` rank as `[1, 1, 3]` and the
`None`-total district gets no rank. -/
theorem calculate_ranks_spec_witness :
    calculate_ranks demoDistricts "ALPHA" = some 1 ∧
    calculate_ranks demoDistricts "BETA" = some 1 ∧
    calculate_ranks demoDistricts "GAMMA" = some 3 ∧
    calculate_ranks demoDistricts "DELTA" = none := by
  have h := calculate_ranks_spec demoDistricts (by decide) (by decide)
  refine ⟨?_, ?_, ?_, ?_⟩
  · exact (h.1 ⟨"ALPHA", some (PyNum.fin 10)⟩ (by decide) 10 rfl).trans (by decide)
  · exact (h.1 ⟨"BETA", some (PyNum.fin 10)⟩ (by decide) 10 rfl).trans (by decide)
  · exact (h.1 ⟨"GAMMA", some (PyNum.fin 8)⟩ (by decide) 8 rfl).trans (by decide)
  · exact h.2.1 ⟨"DELTA", none⟩ (by decide) rfl

/-- C9: `calculate_ranks` is order-independent — two inputs holding the same
records (same names with the same `total_marks`) in any order produce the same
name-to-rank mapping. -/
theorem calculate_ranks_deterministic (l₁ l₂ : List DistrictRec)
    (hperm : l₁.Perm l₂)
    (hnd : (l₁.map DistrictRec.name).Nodup)
    (hne : ∀ d ∈ l₁, d.name ≠ "") :
    calculate_ranks l₁ = calculate_ranks l₂ := by
  have hvperm : (validEntries l₁).Perm (validEntries l₂) := hperm.filterMap _
  have hnd₁ : ((validEntries l₁).map Prod.fst).Nodup :=
    (validEntries_names_sublist l₁).nodup hnd
  have hnd₂ : ((validEntries l₂).map Prod.fst).Nodup :=
    ((hvperm.map Prod.fst)).nodup hnd₁
  have hne₁ : ∀ p ∈ validEntries l₁, p.1 ≠ "" := by
    intro p hp
    rcases validEntries_mem_inv hp with ⟨d, hd, hname, _⟩
    rw [← hname]
    exact hne d hd
  have hne₂ : ∀ p ∈ validEntries l₂, p.1 ≠ "" :=
    fun p hp => hne₁ p (hvperm.mem_iff.mpr hp)
  funext n
  by_cases hmem : ∃ q, (n, q) ∈ validEntries l₁
  · rcases hmem with ⟨q, hq⟩
    rw [calculate_ranks_valid_mem l₁ hnd₁ hne₁ hq,
      calculate_ranks_valid_mem l₂ hnd₂ hne₂ (hvperm.mem_iff.mp hq),
      hvperm.countP_eq]
  · have h₁ : n ∉ (validEntries l₁).map Prod.fst := by
      intro hm
      obtain ⟨⟨a, b⟩, hp, rfl⟩ := List.mem_map.mp hm
      exact hmem ⟨b, hp⟩
    have h₂ : n ∉ (validEntries l₂).map Prod.fst := by
      intro hm
      exact h₁ ((hvperm.map Prod.fst).mem_iff.mpr hm)
    rw [calculate_ranks_not_valid l₁ h₁, calculate_ranks_not_valid l₂ h₂]

/-- Witness for C9: a reversed copy of the demo districts yields the same rank
dict. -/
theorem calculate_ranks_deterministic_witness :
    calculate_ranks demoDistricts = calculate_ranks demoDistricts.reverse :=
  calculate_ranks_deterministic demoDistricts demoDistricts.reverse
    (List.reverse_perm demoDistricts).symm (by decide) (by decide)

/-! ### Per-district total marks
(`_fetch_and_process_state_data_for_date`, `analyze_district_kpis.py` 187-218)

The summation (lines 193-198) adds five already-validated component marks;
its outcome as the `try` block observes it is either a raised exception or a
float value, where an overflow of the float addition shows up as ±Infinity.
The dispatch on that outcome (lines 200-210) is embedded below. -/

/-- Outcome of the `total_score` summation for one district: the body either
raises or produces a float (±Infinity when the addition overflowed). -/
inductive SumOutcome where
  | raises
  | val (x : PyNum)
deriving DecidableEq, Repr

/-- Lines 200-210 of `analyze_district_kpis.py`: an exception sets the
district's `total_marks` to `None`; a NaN/Infinite total is replaced by `0.0`
first; the stored value is `round(total_score, 2)`. -/
def totalMarksOfOutcome : SumOutcome → Option ℚ
  | SumOutcome.raises => none
  | SumOutcome.val x =>
    some (roundTo2 (match x with
      | PyNum.fin q => q
      | _ => 0))

/-- The per-district loop (line 189): every district's `total_marks` is
computed from its own summation outcome alone. -/
def computeTotalsBatch (l : List (String × SumOutcome)) : List (String × Option ℚ) :=
  l.map fun p => (p.1, totalMarksOfOutcome p.2)

/-- Counterexample to C2 as stated: a summation that overflows to Infinity
does NOT give `total_marks = None` — the NaN/Inf branch coerces the total to
`0.0`, which is stored (and would be ranked). -/
theorem totalMarks_overflow_not_null :
    totalMarksOfOutcome (SumOutcome.val PyNum.inf) = some 0 ∧
    totalMarksOfOutcome (SumOutcome.val PyNum.inf) ≠ none := by
  have h0 : roundTo2 0 = 0 := by norm_num [roundTo2, roundHalfEven]
  have h1 : totalMarksOfOutcome (SumOutcome.val PyNum.inf) = some (roundTo2 0) := rfl
  rw [h1, h0]
  exact ⟨rfl, Option.some_ne_none 0⟩

/-- C2 (amended): a throwing total-marks computation nulls only that
district — every district still contributes its own entry to the batch — a
raised exception yields `None`, which is distinct from `0` and fails the
ranking validity filter, while a finite total is stored rounded and a
NaN/Infinite total is stored as `0.0`. -/
theorem totalMarks_error_isolation :
    (∀ (l : List (String × SumOutcome)) (p : String × SumOutcome), p ∈ l →
      (p.1, totalMarksOfOutcome p.2) ∈ computeTotalsBatch l) ∧
    totalMarksOfOutcome SumOutcome.raises = none ∧
    (∀ q, totalMarksOfOutcome (SumOutcome.val (PyNum.fin q)) = some (roundTo2 q)) ∧
    (totalMarksOfOutcome (SumOutcome.val PyNum.nan) = some 0 ∧
      totalMarksOfOutcome (SumOutcome.val PyNum.inf) = some 0 ∧
      totalMarksOfOutcome (SumOutcome.val PyNum.ninf) = some 0) ∧
    ((none : Option ℚ) ≠ some 0 ∧ validMarks none = none) := by
  have h0 : roundTo2 0 = 0 := by norm_num [roundTo2, roundHalfEven]
  have hnan : totalMarksOfOutcome (SumOutcome.val PyNum.nan) = some (roundTo2 0) := rfl
  have hinf : totalMarksOfOutcome (SumOutcome.val PyNum.inf) = some (roundTo2 0) := rfl
  have hninf : totalMarksOfOutcome (SumOutcome.val PyNum.ninf) = some (roundTo2 0) := rfl
  refine ⟨fun l p hp => List.mem_map.mpr ⟨p, hp, rfl⟩, rfl, fun q => rfl,
    ⟨by rw [hnan, h0], by rw [hinf, h0], by rw [hninf, h0]⟩, ⟨by simp, rfl⟩⟩


/-- Witness for amended C2: in a concrete two-district batch where district
"A" raises, "A" maps to `None` while "B" keeps its rounded total. -/
theorem totalMarks_error_isolation_witness :
    ("A", (none : Option ℚ)) ∈
      computeTotalsBatch [("A", SumOutcome.raises), ("B", SumOutcome.val (PyNum.fin 10))] ∧
    ("B", some (10 : ℚ)) ∈
      computeTotalsBatch [("A", SumOutcome.raises), ("B", SumOutcome.val (PyNum.fin 10))] := by
  constructor
  · exact totalMarks_error_isolation.1
      [("A", SumOutcome.raises), ("B", SumOutcome.val (PyNum.fin 10))]
      ("A", SumOutcome.raises) (by decide)
  · have h := totalMarks_error_isolation.1
      [("A", SumOutcome.raises), ("B", SumOutcome.val (PyNum.fin 10))]
      ("B", SumOutcome.val (PyNum.fin 10)) (by decide)
    have he : totalMarksOfOutcome (SumOutcome.val (PyNum.fin 10)) = some 10 := by
      have hr : totalMarksOfOutcome (SumOutcome.val (PyNum.fin 10))
          = some (roundTo2 10) := rfl
      rw [hr]
      norm_num [roundTo2, roundHalfEven]
    rw [he] at h
    exact h

/-! ### Top/bottom extraction (`get_top_bottom_by_field`, `utils.py` 87-135) -/

/-- A record as `get_top_bottom_by_field` observes it: the value reached by
`safe_get(item, key_path)`, the value of the name field, and `extra` standing
for all the remaining fields of the original dict. -/
structure TBItem where
  value : Option PyVal
  name : Option String
  extra : String
deriving DecidableEq, Repr

/-- `safe_get` on the value path (utils.py 54-73): missing/`None` gives the
default `None`, and a retrieved float NaN is also mapped to the default. -/
def safeGetVal : Option PyVal → Option PyVal
  | some (PyVal.num PyNum.nan) => none
  | v => v

/-- Python truthiness of the retrieved name (names are strings or absent). -/
def truthyName : Option String → Bool
  | some s => decide (s ≠ "")
  | none => false

/-- Python `<` on numbers: NaN is incomparable (every comparison false). -/
def pyLtB : PyNum → PyNum → Bool
  | PyNum.fin p, PyNum.fin q => decide (p < q)
  | PyNum.fin _, PyNum.inf => true
  | PyNum.ninf, PyNum.fin _ => true
  | PyNum.ninf, PyNum.inf => true
  | _, _ => false

/-- The filter loop of `get_top_bottom_by_field` (lines 112-124):
`isinstance(value, (int, float)) and value == value and name`, keeping the
original item together with the extracted value. -/
def tbValidEntries (l : List TBItem) : List (TBItem × PyNum) :=
  l.filterMap fun it =>
    match safeGetVal it.value with
    | some (PyVal.num x) =>
      if x ≠ PyNum.nan ∧ truthyName it.name = true then some (it, x) else none
    | _ => none

/-- `y` sorts strictly before `x` under
`sort(key=lambda e: e.value, reverse=higher_is_better)`. -/
def entryPrec (hib : Bool) (y x : TBItem × PyNum) : Bool :=
  if hib then pyLtB x.2 y.2 else pyLtB y.2 x.2

/-- Stable insertion for the sort of line 131: the new element goes after
exactly the elements that sort strictly before it. -/
def insertEntry (hib : Bool) (x : TBItem × PyNum) :
    List (TBItem × PyNum) → List (TBItem × PyNum)
  | [] => [x]
  | y :: ys => if entryPrec hib y x then y :: insertEntry hib x ys else x :: y :: ys

/-- The stable sort of `valid_entries.sort(key=..., reverse=higher_is_better)`
(line 131). -/
def sortEntries (hib : Bool) : List (TBItem × PyNum) → List (TBItem × PyNum)
  | [] => []
  | x :: xs => insertEntry hib x (sortEntries hib xs)

/-- The `{"top": ..., "bottom": ...}` result dict. -/
structure TopBottom where
  top : Option TBItem
  bottom : Option TBItem
deriving DecidableEq, Repr

/-- `get_top_bottom_by_field` (utils.py 87-135): falsy input and an empty
filtered list both return `{top: None, bottom: None}`; otherwise the filtered
entries are sorted (descending iff `higher_is_better`) and the full original
items at the two ends are returned. -/
def get_top_bottom_by_field (l : List TBItem) (higher_is_better : Bool) : TopBottom :=
  if l = [] then ⟨none, none⟩
  else if tbValidEntries l = [] then ⟨none, none⟩
  else
    ⟨((sortEntries higher_is_better (tbValidEntries l)).head?).map Prod.fst,
      ((sortEntries higher_is_better (tbValidEntries l)).getLast?).map Prod.fst⟩

theorem pyLtB_asymm {a b : PyNum} (h : pyLtB a b = true) : pyLtB b a = false := by
  cases a <;> cases b <;> simp_all [pyLtB] <;> linarith

theorem pyLtB_irrefl (a : PyNum) : pyLtB a a = false := by
  cases a <;> simp [pyLtB]

theorem pyLtB_neg_trans {a b c : PyNum} (hb : b ≠ PyNum.nan)
    (h1 : pyLtB a b = false) (h2 : pyLtB b c = false) : pyLtB a c = false := by
  cases a <;> cases b <;> cases c <;> simp_all [pyLtB] <;> linarith

theorem entryPrec_irrefl (hib : Bool) (a : TBItem × PyNum) :
    entryPrec hib a a = false := by
  cases hib <;> simp [entryPrec, pyLtB_irrefl]

theorem entryPrec_asymm (hib : Bool) {a b : TBItem × PyNum}
    (h : entryPrec hib a b = true) : entryPrec hib b a = false := by
  cases hib <;> simp only [entryPrec, if_pos, if_neg] at h ⊢ <;>
    simpa using pyLtB_asymm (by simpa using h)

theorem entryPrec_neg_trans (hib : Bool) {a b c : TBItem × PyNum}
    (hb : b.2 ≠ PyNum.nan)
    (h1 : entryPrec hib b a = false) (h2 : entryPrec hib c b = false) :
    entryPrec hib c a = false := by
  cases hib <;> simp only [entryPrec, if_pos, if_neg] at h1 h2 ⊢
  · exact pyLtB_neg_trans hb (by simpa using h2) (by simpa using h1)
  · exact pyLtB_neg_trans hb (by simpa using h1) (by simpa using h2)

theorem insertEntry_perm (hib : Bool) (x : TBItem × PyNum)
    (l : List (TBItem × PyNum)) : (insertEntry hib x l).Perm (x :: l) := by
  induction l with
  | nil => exact List.Perm.refl _
  | cons y ys ih =>
    by_cases h : entryPrec hib y x = true
    · simpa [insertEntry, h] using ((ih.cons y).trans (List.Perm.swap x y ys))
    · simp [insertEntry, h]

theorem sortEntries_perm (hib : Bool) (l : List (TBItem × PyNum)) :
    (sortEntries hib l).Perm l := by
  induction l with
  | nil => exact List.Perm.refl _
  | cons x xs ih => exact (insertEntry_perm hib x (sortEntries hib xs)).trans (ih.cons x)

theorem insertEntry_pairwise (hib : Bool) (x : TBItem × PyNum)
    (l : List (TBItem × PyNum)) (hl : ∀ p ∈ l, p.2 ≠ PyNum.nan)
    (h : l.Pairwise fun a b => entryPrec hib b a = false) :
    (insertEntry hib x l).Pairwise fun a b => entryPrec hib b a = false := by
  induction l with
  | nil => simp [insertEntry]
  | cons y ys ih =>
    rcases List.pairwise_cons.mp h with ⟨hy, hys⟩
    by_cases hpy : entryPrec hib y x = true
    · simp only [insertEntry, if_pos hpy]
      refine List.pairwise_cons.mpr ⟨?_, ih (fun p hp => hl p (List.mem_cons_of_mem _ hp)) hys⟩
      intro z hz
      rcases List.mem_cons.mp ((insertEntry_perm hib x ys).mem_iff.mp hz) with rfl | hz
      · exact entryPrec_asymm hib hpy
      · exact hy z hz
    · have hpy' : entryPrec hib y x = false := by
        cases hxy : entryPrec hib y x
        · rfl
        · exact absurd hxy hpy
      simp only [insertEntry, if_neg hpy]
      refine List.pairwise_cons.mpr ⟨?_, h⟩
      intro z hz
      rcases List.mem_cons.mp hz with rfl | hz
      · exact hpy'
      · exact entryPrec_neg_trans hib (hl y (by simp)) hpy' (hy z hz)

theorem sortEntries_pairwise (hib : Bool) (l : List (TBItem × PyNum))
    (hl : ∀ p ∈ l, p.2 ≠ PyNum.nan) :
    (sortEntries hib l).Pairwise fun a b => entryPrec hib b a = false := by
  induction l with
  | nil => simp [sortEntries]
  | cons x xs ih =>
    refine insertEntry_pairwise hib x (sortEntries hib xs) ?_
      (ih fun p hp => hl p (List.mem_cons_of_mem _ hp))
    intro p hp
    exact hl p (List.mem_cons_of_mem _ ((sortEntries_perm hib xs).mem_iff.mp hp))

theorem pairwise_rel_getLast {α : Type} {R : α → α → Prop} :
    ∀ (l : List α) (h : l ≠ []) (x : α), l.Pairwise R → x ∈ l →
      x = l.getLast h ∨ R x (l.getLast h)
  | [], h, _, _, _ => absurd rfl h
  | [a], _, x, _, hx => by
    rcases List.mem_singleton.mp hx with rfl
    exact Or.inl rfl
  | a :: b :: t, _, x, hp, hx => by
    rcases List.pairwise_cons.mp hp with ⟨ha, hrest⟩
    have hlast : (a :: b :: t).getLast (by simp) = (b :: t).getLast (by simp) :=
      List.getLast_cons (by simp)
    rcases List.mem_cons.mp hx with rfl | hx
    · right
      rw [hlast]
      exact ha _ (List.getLast_mem (by simp))
    · rw [hlast]
      exact pairwise_rel_getLast (b :: t) (by simp) x hrest hx

theorem tbValidEntries_mem_inv {l : List TBItem} {e : TBItem × PyNum}
    (h : e ∈ tbValidEntries l) :
    e.1 ∈ l ∧ safeGetVal e.1.value = some (PyVal.num e.2) ∧
      e.2 ≠ PyNum.nan ∧ truthyName e.1.name = true := by
  rcases List.mem_filterMap.mp h with ⟨it, hit, heq⟩
  cases hs : safeGetVal it.value with
  | none => rw [hs] at heq; cases heq
  | some v =>
    cases v with
    | num x =>
      rw [hs] at heq
      change (if x ≠ PyNum.nan ∧ truthyName it.name = true
        then some (it, x) else none) = some e at heq
      by_cases hc : x ≠ PyNum.nan ∧ truthyName it.name = true
      · rw [if_pos hc] at heq
        have he : (it, x) = e := Option.some.inj heq
        subst he
        exact ⟨hit, hs, hc.1, hc.2⟩
      · rw [if_neg hc] at heq; cases heq
    | strNum x => rw [hs] at heq; cases heq
    | other => rw [hs] at heq; cases heq

/-- Counterexample to C3 as stated: the filter admits an Infinity value (only
`None` and NaN are rejected — `value == value` is the sole numeric check after
`safe_get`), so a list whose only record carries value `+Infinity` does not
return `{top: None, bottom: None}`; it returns that record. -/
theorem get_top_bottom_infinite_kept :
    safeGetVal (some (PyVal.num PyNum.inf)) = some (PyVal.num PyNum.inf) ∧
    (get_top_bottom_by_field
        [TBItem.mk (some (PyVal.num PyNum.inf)) (some "ACME") "payload"] true)
      = ⟨some (TBItem.mk (some (PyVal.num PyNum.inf)) (some "ACME") "payload"),
          some (TBItem.mk (some (PyVal.num PyNum.inf)) (some "ACME") "payload")⟩ := by
  constructor
  · rfl
  · rfl

/-- C3 (amended): `get_top_bottom_by_field` keeps exactly the records whose
compared value is a non-NaN number (±Infinity admitted) and whose name is
truthy; with no survivor it returns `{top: None, bottom: None}`, and
otherwise `top` and `bottom` are the complete original records of entries
that no survivor strictly beats (resp. that strictly beat no survivor) in
the chosen direction. -/
theorem get_top_bottom_by_field_spec (l : List TBItem) (hib : Bool) :
    (∀ e ∈ tbValidEntries l, e.1 ∈ l ∧ safeGetVal e.1.value = some (PyVal.num e.2) ∧
      e.2 ≠ PyNum.nan ∧ truthyName e.1.name = true) ∧
    (tbValidEntries l = [] → get_top_bottom_by_field l hib = ⟨none, none⟩) ∧
    (tbValidEntries l ≠ [] →
      (∃ e ∈ tbValidEntries l, (get_top_bottom_by_field l hib).top = some e.1 ∧
        ∀ e2 ∈ tbValidEntries l, entryPrec hib e2 e = false) ∧
      (∃ e ∈ tbValidEntries l, (get_top_bottom_by_field l hib).bottom = some e.1 ∧
        ∀ e2 ∈ tbValidEntries l, entryPrec hib e e2 = false)) := by
  refine ⟨fun e he => tbValidEntries_mem_inv he, fun hv => ?_, fun hv => ?_⟩
  · by_cases hl : l = []
    · rw [get_top_bottom_by_field, if_pos hl]
    · rw [get_top_bottom_by_field, if_neg hl, if_pos hv]
  · have hl : l ≠ [] := by
      intro he
      subst he
      exact hv rfl
    have hperm := sortEntries_perm hib (tbValidEntries l)
    have hnn : ∀ p ∈ tbValidEntries l, p.2 ≠ PyNum.nan :=
      fun p hp => (tbValidEntries_mem_inv hp).2.2.1
    have hpw := sortEntries_pairwise hib (tbValidEntries l) hnn
    have hsne : sortEntries hib (tbValidEntries l) ≠ [] := by
      intro he
      exact hv (List.eq_nil_of_length_eq_zero (by
        have := hperm.length_eq
        rw [he] at this
        simpa using this.symm))
    rw [get_top_bottom_by_field, if_neg hl, if_neg hv]
    cases hs : sortEntries hib (tbValidEntries l) with
    | nil => exact absurd hs hsne
    | cons e0 erest =>
      constructor
      · refine ⟨e0, hperm.mem_iff.mp (by rw [hs]; simp), by simp, ?_⟩
        intro e2 he2
        have he2s : e2 ∈ e0 :: erest := by
          rw [← hs]
          exact hperm.mem_iff.mpr he2
        rcases List.mem_cons.mp he2s with heq | he2s
        · rw [heq]
          exact entryPrec_irrefl hib _
        · rw [hs] at hpw
          exact (List.pairwise_cons.mp hpw).1 e2 he2s
      · have hlast := List.getLast?_eq_getLast (e0 :: erest) (by simp)
        refine ⟨(e0 :: erest).getLast (by simp),
          hperm.mem_iff.mp (by rw [hs]; exact List.getLast_mem _), ?_, ?_⟩
        · simp [hlast]
        · intro e2 he2
          have he2s : e2 ∈ e0 :: erest := by
            rw [← hs]
            exact hperm.mem_iff.mpr he2
          rw [hs] at hpw
          rcases pairwise_rel_getLast (e0 :: erest) (by simp) e2 hpw he2s with heq | hrel
          · rw [heq]
            exact entryPrec_irrefl hib _
          · exact hrel

/-- Concrete records for the extrema witnesses: a high scorer, a low scorer,
a NaN-valued record and a nameless record. -/
def demoItems : List TBItem :=
  [TBItem.mk (some (PyVal.num (PyNum.fin 18))) (some "TOPPER") "fieldsT",
   TBItem.mk (some (PyVal.num (PyNum.fin 3))) (some "LAGGARD") "fieldsL",
   TBItem.mk (some (PyVal.num PyNum.nan)) (some "NANVILLE") "fieldsN",
   TBItem.mk (some (PyVal.num (PyNum.fin 99))) none "fieldsX"]

/-- Witness for amended C3: on the demo list the survivors are the two named
finite records and `top` is the full record of the best of them. -/
theorem get_top_bottom_by_field_spec_witness :
    tbValidEntries demoItems ≠ [] ∧
    (∃ e ∈ tbValidEntries demoItems,
      (get_top_bottom_by_field demoItems true).top = some e.1 ∧
      ∀ e2 ∈ tbValidEntries demoItems, entryPrec true e2 e = false) :=
  ⟨by decide, ((get_top_bottom_by_field_spec demoItems true).2.2 (by decide)).1⟩

/-! ### Record normalisation (`process_component_data`,
`analyze_farm_ponds.py` 25-79, caller 110-117) -/

/-- The raw name field as the code can observe it: a string (with its
content), or some non-string value.  A float-NaN name is already mapped to
`none` here because `safe_get` turns NaN into its default. -/
inductive NameVal where
  | str (s : String)
  | nonstr
deriving DecidableEq, Repr

/-- Truncation toward zero, Python's `int()` on a float. -/
def truncQ (q : ℚ) : ℤ := if 0 ≤ q then ⌊q⌋ else -⌊-q⌋

/-- Outcome of Python `int(v)` relative to the surrounding
`except (ValueError, TypeError)` clauses (`analyze_farm_ponds.py` 34-37 and
42-43): a value, an exception the clause catches, or an exception it does NOT
catch (`OverflowError`). -/
inductive IntConv where
  | ok (n : ℤ)
  | caught
  | uncaught
deriving DecidableEq, Repr

/-- Python `int(v)`: a finite float truncates toward zero; NaN raises
`ValueError` (caught); ±Infinity raises `OverflowError`, which
`except (ValueError, TypeError)` does NOT catch — and `safe_get` passes
Infinity through (it filters only NaN); a string converts only when it spells
an integer and otherwise raises `ValueError` (caught; `int("inf")` and
`int("nan")` also raise `ValueError`); any other value raises
`TypeError`/`ValueError` (caught). -/
def pyIntConv : PyVal → IntConv
  | PyVal.num (PyNum.fin q) => IntConv.ok (truncQ q)
  | PyVal.num PyNum.nan => IntConv.caught
  | PyVal.num PyNum.inf => IntConv.uncaught
  | PyVal.num PyNum.ninf => IntConv.uncaught
  | PyVal.strNum (PyNum.fin q) =>
    if q.den = 1 then IntConv.ok q.num else IntConv.caught
  | PyVal.strNum _ => IntConv.caught
  | PyVal.other => IntConv.caught

/-- Python `float(v)`: numbers pass through (NaN/Infinity included), numeric
strings parse, anything else raises `ValueError`/`TypeError` (`none`), which
the caller's `except` clause catches.  (`float()` on an int too large for a
double would raise an uncaught `OverflowError` in Python; under the declared
exact-rational idealization floats have no range limit, so that path is
absent, exactly as in `_calculate_change`.) -/
def pyFloatTry : PyVal → Option PyNum
  | PyVal.num x => some x
  | PyVal.strNum x => some x
  | PyVal.other => none

/-- `safe_get(data, [key], default)`: the stored value unless missing, `None`
or float NaN, in which case the default. -/
def safeGetD (v : Option PyVal) (d : PyVal) : PyVal := (safeGetVal v).getD d

/-- `round(x, 2)` on a Python float: finite values round, NaN/±Infinity pass
through unchanged. -/
def roundPy2 : PyNum → PyNum
  | PyNum.fin q => PyNum.fin (roundTo2 q)
  | x => x

/-- The processed `achievement_percentage` field: a number, the literal
string marker `'Inf'`, or `"N/A"`. -/
inductive AchPerc where
  | numv (x : PyNum)
  | infMark
  | na
deriving DecidableEq, Repr

/-- Lines 45-69 of `analyze_farm_ponds.py`: a numeric ±Infinity becomes the
`'Inf'` marker, a finite number is rounded to 2 decimals; a string is parsed
with `float()` and treated the same way; unparseable or missing values give
`"N/A"`.  (A numeric NaN cannot reach here: `safe_get` already replaced it by
`None`; the NaN rows keep the function total and mirror
`round(nan, 2) = nan`.) -/
def processAch : Option PyVal → AchPerc
  | some (PyVal.num PyNum.inf) => AchPerc.infMark
  | some (PyVal.num PyNum.ninf) => AchPerc.infMark
  | some (PyVal.num (PyNum.fin q)) => AchPerc.numv (PyNum.fin (roundTo2 q))
  | some (PyVal.num PyNum.nan) => AchPerc.numv PyNum.nan
  | some (PyVal.strNum PyNum.inf) => AchPerc.infMark
  | some (PyVal.strNum PyNum.ninf) => AchPerc.infMark
  | some (PyVal.strNum (PyNum.fin q)) => AchPerc.numv (PyNum.fin (roundTo2 q))
  | some (PyVal.strNum PyNum.nan) => AchPerc.numv PyNum.nan
  | some PyVal.other => AchPerc.na
  | none => AchPerc.na

/-- A raw farm-ponds API record, holding the fields the function reads. -/
structure RawRecord where
  marks : Option PyVal
  actual_count : Option PyVal
  target : Option PyVal
  achievement_percentage : Option PyVal
  name : Option NameVal
deriving DecidableEq, Repr

/-- The record built by `process_component_data` (lines 73-79). -/
structure ProcessedRecord where
  name : Option NameVal
  actual_count : ℤ
  marks : PyNum
  target : Option ℤ
  achievement_percentage : AchPerc
deriving DecidableEq, Repr

/-- `process_component_data(data)` (`analyze_farm_ponds.py` 25-79):

* a falsy input (`None` or an empty dict, modelled as `none`) returns `None`
  (`Except.ok none`);
* `int()` on an `actual_count` or `target` field holding a float ±Infinity
  raises an `OverflowError` that the `except (ValueError, TypeError)` clauses
  do not catch, so the call raises (`Except.error ()`);
* every other record is returned (`Except.ok (some ...)`) with
  - `name`: `safe_get(data, ["name"])`, stored verbatim — no trimming,
    upper-casing or rejection of missing/empty/non-string names,
  - `actual_count`: `int(safe_get(..., 0))`, default `0` on a caught failure,
  - `marks`: `round(float(safe_get(..., 0.0)), 2)`, default `0.0` on failure,
  - `target`: `int(...)` when present and convertible, else the `"N/A"`
    sentinel (`none`; a missing/`None` `target_raw` skips `int()` and is
    folded into the same `caught` row below, giving the same `"N/A"`),
  - `achievement_percentage`: the special-cased processing above.

(In the source the count conversion runs before the target conversion, so
when both would raise, the count one raises first; both orders yield the same
`Except.error ()`.) -/
def process_component_data :
    Option RawRecord → Except Unit (Option ProcessedRecord)
  | none => Except.ok none
  | some data =>
    match pyIntConv (safeGetD data.actual_count (PyVal.num (PyNum.fin 0))),
        (match safeGetVal data.target with
         | some tv => pyIntConv tv
         | none => IntConv.caught) with
    | IntConv.uncaught, _ => Except.error ()
    | _, IntConv.uncaught => Except.error ()
    | cres, tres =>
      Except.ok (some
        { name := data.name
          actual_count := match cres with | IntConv.ok n => n | _ => 0
          marks :=
            roundPy2 ((pyFloatTry (safeGetD data.marks
              (PyVal.num (PyNum.fin 0)))).getD (PyNum.fin 0))
          target := match tres with | IntConv.ok n => some n | _ => none
          achievement_percentage :=
            processAch (safeGetVal data.achievement_percentage) })

/-- The caller loop (`_fetch_and_process_data_for_date`, lines 113-116):
every raw entry is processed and the result appended whenever it is truthy —
a returned dict is always truthy — while an exception raised inside
`process_component_data` propagates (there is no `try` around the loop) and
aborts the whole per-date processing. -/
def state_results_processed (raws : List (Option RawRecord)) :
    Except Unit (List ProcessedRecord) :=
  match raws with
  | [] => Except.ok []
  | r :: rest =>
    match process_component_data r with
    | Except.error e => Except.error e
    | Except.ok none => state_results_processed rest
    | Except.ok (some p) => (state_results_processed rest).map fun l => p :: l

/-- A raw record with marks but no name field at all. -/
def rawUnnamed : RawRecord :=
  ⟨some (PyVal.num (PyNum.fin 5)), none, none, none, none⟩

/-- A raw record whose name is lower-case and padded. -/
def rawLower : RawRecord :=
  ⟨none, none, none, none, some (NameVal.str " bhopal ")⟩

/-- A processed record that the caller appended is in the output list —
exceptions aside, no accepted record is dropped. -/
theorem state_results_processed_mem :
    ∀ (raws : List (Option RawRecord)) (l : List ProcessedRecord),
      state_results_processed raws = Except.ok l →
      ∀ (r : Option RawRecord) (p : ProcessedRecord), r ∈ raws →
        process_component_data r = Except.ok (some p) → p ∈ l := by
  intro raws
  induction raws with
  | nil =>
    intro l hl r p hr
    cases hr
  | cons r0 rest ih =>
    intro l hl r p hr hp
    rcases List.mem_cons.mp hr with rfl | hr2
    · rw [state_results_processed, hp] at hl
      cases hrest : state_results_processed rest with
      | error e => rw [hrest] at hl; cases hl
      | ok l2 =>
        rw [hrest] at hl
        simp only [Except.map, Except.ok.injEq] at hl
        rw [← hl]
        exact List.mem_cons_self p l2
    · rw [state_results_processed] at hl
      cases hp0 : process_component_data r0 with
      | error e => rw [hp0] at hl; cases hl
      | ok o =>
        cases o with
        | none =>
          rw [hp0] at hl
          exact ih l hl r p hr2 hp
        | some p0 =>
          rw [hp0] at hl
          cases hrest : state_results_processed rest with
          | error e => rw [hrest] at hl; cases hl
          | ok l2 =>
            rw [hrest] at hl
            simp only [Except.map, Except.ok.injEq] at hl
            rw [← hl]
            exact List.mem_cons_of_mem p0 (ih l2 hrest r p hr2 hp)

/-- An uncaught exception in any entry aborts the whole per-date loop. -/
theorem state_results_processed_abort :
    ∀ (raws : List (Option RawRecord)) (r : Option RawRecord), r ∈ raws →
      process_component_data r = Except.error () →
      state_results_processed raws = Except.error () := by
  intro raws
  induction raws with
  | nil =>
    intro r hr
    cases hr
  | cons r0 rest ih =>
    intro r hr hp
    rcases List.mem_cons.mp hr with rfl | hr2
    · rw [state_results_processed, hp]
    · have hrest := ih r hr2 hp
      cases hp0 : process_component_data r0 with
      | error e =>
        rw [state_results_processed, hp0]
      | ok o =>
        cases o with
        | none => rw [state_results_processed, hp0, hrest]
        | some p0 => rw [state_results_processed, hp0, hrest]; rfl

/-- Counterexample to C4 as stated: a record with a missing name is NOT
rejected — it normalises to a usable record (with `name = None`) that appears
in the downstream `state_results_processed` list — and an accepted record's
name is stored verbatim, not trimmed/upper-cased. -/
theorem process_component_data_unnamed_kept :
    process_component_data (some rawUnnamed)
      = Except.ok (some ⟨none, 0, PyNum.fin (roundTo2 5), none, AchPerc.na⟩) ∧
    state_results_processed [some rawUnnamed]
      = Except.ok [⟨none, 0, PyNum.fin (roundTo2 5), none, AchPerc.na⟩] ∧
    process_component_data (some rawLower)
      = Except.ok (some ⟨some (NameVal.str " bhopal "), 0, PyNum.fin (roundTo2 0),
          none, AchPerc.na⟩) ∧
    some (NameVal.str " bhopal ") ≠ some (NameVal.str "BHOPAL") :=
  ⟨rfl, rfl, rfl, by decide⟩

/-- C4 (amended): normalisation rejects (returns `None` for) only a falsy raw
record; a truthy record whose `actual_count` or `target` field holds a float
±Infinity makes `int()` raise an uncaught `OverflowError` that aborts the
whole per-date loop; every other truthy record — whatever its name field
holds — yields a usable record whose stored name is the raw `safe_get` result
unchanged, and that record reaches the downstream processed list. -/
theorem process_component_data_spec :
    process_component_data none = Except.ok none ∧
    (∀ r : RawRecord, process_component_data (some r) ≠ Except.ok none) ∧
    (∀ (r : RawRecord) (p : ProcessedRecord),
      process_component_data (some r) = Except.ok (some p) → p.name = r.name) ∧
    (∀ r : RawRecord,
      pyIntConv (safeGetD r.actual_count (PyVal.num (PyNum.fin 0)))
        ≠ IntConv.uncaught →
      (∀ tv, safeGetVal r.target = some tv → pyIntConv tv ≠ IntConv.uncaught) →
      ∃ p : ProcessedRecord,
        process_component_data (some r) = Except.ok (some p) ∧ p.name = r.name) ∧
    (∀ r : RawRecord,
      pyIntConv (safeGetD r.actual_count (PyVal.num (PyNum.fin 0)))
        = IntConv.uncaught →
      process_component_data (some r) = Except.error ()) ∧
    (∀ (raws : List (Option RawRecord)) (l : List ProcessedRecord)
        (r : Option RawRecord) (p : ProcessedRecord),
      state_results_processed raws = Except.ok l → r ∈ raws →
      process_component_data r = Except.ok (some p) → p ∈ l) ∧
    (∀ (raws : List (Option RawRecord)) (r : Option RawRecord),
      r ∈ raws → process_component_data r = Except.error () →
      state_results_processed raws = Except.error ()) := by
  refine ⟨rfl, fun r => ?_, fun r p => ?_, fun r hc ht => ?_, fun r hc => ?_,
    fun raws l r p hl hr hp => state_results_processed_mem raws l hl r p hr hp,
    fun raws r hr hp => state_results_processed_abort raws r hr hp⟩
  · cases hcc : pyIntConv (safeGetD r.actual_count (PyVal.num (PyNum.fin 0))) <;>
      cases htc : (match safeGetVal r.target with
        | some tv => pyIntConv tv
        | none => IntConv.caught) <;>
      simp [process_component_data, hcc, htc]
  · intro hp
    cases hcc : pyIntConv (safeGetD r.actual_count (PyVal.num (PyNum.fin 0))) <;>
      cases htc : (match safeGetVal r.target with
        | some tv => pyIntConv tv
        | none => IntConv.caught) <;>
      simp only [process_component_data, hcc, htc] at hp <;>
      first
        | exact Except.noConfusion hp
        | rw [← Option.some.inj (Except.ok.inj hp)]
  · cases hcc : pyIntConv (safeGetD r.actual_count (PyVal.num (PyNum.fin 0))) with
    | uncaught => exact absurd hcc hc
    | ok n =>
      cases hst : safeGetVal r.target with
      | none =>
        exact ⟨⟨r.name, n,
            roundPy2 ((pyFloatTry (safeGetD r.marks (PyVal.num (PyNum.fin 0)))).getD (PyNum.fin 0)),
            none, processAch (safeGetVal r.achievement_percentage)⟩,
          by simp [process_component_data, hcc, hst], rfl⟩
      | some tv =>
        cases htc : pyIntConv tv with
        | uncaught => exact absurd htc (ht tv hst)
        | ok n2 =>
          exact ⟨⟨r.name, n,
            roundPy2 ((pyFloatTry (safeGetD r.marks (PyVal.num (PyNum.fin 0)))).getD (PyNum.fin 0)),
            some n2, processAch (safeGetVal r.achievement_percentage)⟩,
            by simp [process_component_data, hcc, hst, htc], rfl⟩
        | caught =>
          exact ⟨⟨r.name, n,
            roundPy2 ((pyFloatTry (safeGetD r.marks (PyVal.num (PyNum.fin 0)))).getD (PyNum.fin 0)),
            none, processAch (safeGetVal r.achievement_percentage)⟩,
            by simp [process_component_data, hcc, hst, htc], rfl⟩
    | caught =>
      cases hst : safeGetVal r.target with
      | none =>
        exact ⟨⟨r.name, 0,
            roundPy2 ((pyFloatTry (safeGetD r.marks (PyVal.num (PyNum.fin 0)))).getD (PyNum.fin 0)),
            none, processAch (safeGetVal r.achievement_percentage)⟩,
          by simp [process_component_data, hcc, hst], rfl⟩
      | some tv =>
        cases htc : pyIntConv tv with
        | uncaught => exact absurd htc (ht tv hst)
        | ok n2 =>
          exact ⟨⟨r.name, 0,
            roundPy2 ((pyFloatTry (safeGetD r.marks (PyVal.num (PyNum.fin 0)))).getD (PyNum.fin 0)),
            some n2, processAch (safeGetVal r.achievement_percentage)⟩,
            by simp [process_component_data, hcc, hst, htc], rfl⟩
        | caught =>
          exact ⟨⟨r.name, 0,
            roundPy2 ((pyFloatTry (safeGetD r.marks (PyVal.num (PyNum.fin 0)))).getD (PyNum.fin 0)),
            none, processAch (safeGetVal r.achievement_percentage)⟩,
            by simp [process_component_data, hcc, hst, htc], rfl⟩
  · cases htc : (match safeGetVal r.target with
      | some tv => pyIntConv tv
      | none => IntConv.caught) <;>
      simp [process_component_data, hc, htc]

/-- Witness for amended C4: the unnamed demo record (its count/target fields
hold no Infinity) is accepted, keeps its `None` name, and lands in the
processed list. -/
theorem process_component_data_spec_witness :
    (∃ p : ProcessedRecord,
      process_component_data (some rawUnnamed) = Except.ok (some p) ∧
      p.name = rawUnnamed.name) ∧
    (⟨none, 0, PyNum.fin (roundTo2 5), none, AchPerc.na⟩ : ProcessedRecord)
      ∈ [(⟨none, 0, PyNum.fin (roundTo2 5), none, AchPerc.na⟩ : ProcessedRecord)] := by
  constructor
  · exact process_component_data_spec.2.2.2.1 rawUnnamed
      (fun h => IntConv.noConfusion h) (fun tv h => Option.noConfusion h)
  · exact process_component_data_spec.2.2.2.2.2.1 [some rawUnnamed] _
      (some rawUnnamed) _ rfl (by simp) rfl

/-! ### Per-category deltas (`analyze`, `analyze_old_works.py` 386-402) -/

/-- One `individual_work_types` category entry as the delta loop reads it:
`safe_get(..., ["completed"], 0)` and `safe_get(..., ["marks"], 0.0)`,
with `none` standing for a missing/`None`/NaN field. -/
structure CatData where
  completed : Option ℤ
  marks : Option ℚ
deriving DecidableEq, Repr

/-- `int(safe_get(cat_data, ["completed"], 0))` where the category itself
defaults to `{}` when absent. -/
def catCompleted : Option CatData → ℤ
  | some c => c.completed.getD 0
  | none => 0

/-- `float(safe_get(cat_data, ["marks"], 0.0))` with the same defaulting. -/
def catMarks : Option CatData → ℚ
  | some c => c.marks.getD 0
  | none => 0

/-- `OLD_NRM_TARGET_CATEGORIES` (`analyze_old_works.py` 29-32). -/
def OLD_NRM_TARGET_CATEGORIES : List String :=
  ["Talab Nirman", "Check_Stop Dam", "Recharge Pit", "Koop Nirman",
   "Percolation Talab", "Khet Talab", "Other NRM Work"]

/-- The loop of lines 388-394: for each category in order, compute
`completed_change` and `marks_change = round(curr - prev, 2)` and add the
category to the dict only when at least one delta is non-zero. -/
def categoryChanges (curr prev : String → Option CatData) :
    List String → List (String × (ℤ × ℚ))
  | [] => []
  | cat :: rest =>
    (if catCompleted (curr cat) - catCompleted (prev cat) ≠ 0 ∨
        roundTo2 (catMarks (curr cat) - catMarks (prev cat)) ≠ 0 then
      [(cat, (catCompleted (curr cat) - catCompleted (prev cat),
              roundTo2 (catMarks (curr cat) - catMarks (prev cat))))]
    else []) ++ categoryChanges curr prev rest

/-- `individual_changes` as stored in
`selected_district_comparison.change.individual_work_type_changes`. -/
def individual_work_type_changes (curr prev : String → Option CatData) :
    List (String × (ℤ × ℚ)) :=
  categoryChanges curr prev OLD_NRM_TARGET_CATEGORIES

theorem categoryChanges_lookup_not_mem (curr prev : String → Option CatData)
    (cats : List String) (cat : String) (h : cat ∉ cats) :
    (categoryChanges curr prev cats).lookup cat = none := by
  induction cats with
  | nil => rfl
  | cons c rest ih =>
    have hne : cat ≠ c := fun he => h (he ▸ List.mem_cons_self c rest)
    have hrest : cat ∉ rest := fun hm => h (List.mem_cons_of_mem c hm)
    by_cases hc : catCompleted (curr c) - catCompleted (prev c) ≠ 0 ∨
        roundTo2 (catMarks (curr c) - catMarks (prev c)) ≠ 0
    · have hbeq : (cat == c) = false := by simp [hne]
      rw [categoryChanges, if_pos hc]
      simp only [List.singleton_append, List.lookup, hbeq]
      exact ih hrest
    · rw [categoryChanges, if_neg hc, List.nil_append]
      exact ih hrest

theorem categoryChanges_lookup_mem (curr prev : String → Option CatData)
    (cats : List String) (hnd : cats.Nodup) (cat : String) (h : cat ∈ cats) :
    (categoryChanges curr prev cats).lookup cat =
      (if catCompleted (curr cat) - catCompleted (prev cat) ≠ 0 ∨
          roundTo2 (catMarks (curr cat) - catMarks (prev cat)) ≠ 0 then
        some (catCompleted (curr cat) - catCompleted (prev cat),
              roundTo2 (catMarks (curr cat) - catMarks (prev cat)))
      else none) := by
  induction cats with
  | nil => cases h
  | cons c rest ih =>
    rcases List.nodup_cons.mp hnd with ⟨hcr, hndr⟩
    rcases List.mem_cons.mp h with rfl | hmem
    · by_cases hc : catCompleted (curr cat) - catCompleted (prev cat) ≠ 0 ∨
          roundTo2 (catMarks (curr cat) - catMarks (prev cat)) ≠ 0
      · rw [categoryChanges, if_pos hc, if_pos hc]
        simp [List.lookup]
      · rw [categoryChanges, if_neg hc, if_neg hc, List.nil_append]
        exact categoryChanges_lookup_not_mem curr prev rest cat hcr
    · have hne : cat ≠ c := fun he => hcr (he ▸ hmem)
      have hbeq : (cat == c) = false := by simp [hne]
      by_cases hc : catCompleted (curr c) - catCompleted (prev c) ≠ 0 ∨
          roundTo2 (catMarks (curr c) - catMarks (prev c)) ≠ 0
      · rw [categoryChanges, if_pos hc]
        simp only [List.singleton_append, List.lookup, hbeq]
        exact ih hndr hmem
      · rw [categoryChanges, if_neg hc, List.nil_append]
        exact ih hndr hmem

/-- C7: the per-category change map contains a tracked category (with its
`{completed_change, marks_change}` pair) exactly when its completed delta or
its marks delta is non-zero; a category with both deltas zero — and any
string outside the tracked category list — is absent. -/
theorem category_delta_sparsity (curr prev : String → Option CatData)
    (cat : String) :
    (cat ∈ OLD_NRM_TARGET_CATEGORIES →
      ((catCompleted (curr cat) - catCompleted (prev cat) ≠ 0 ∨
          roundTo2 (catMarks (curr cat) - catMarks (prev cat)) ≠ 0) →
        (individual_work_type_changes curr prev).lookup cat =
          some (catCompleted (curr cat) - catCompleted (prev cat),
                roundTo2 (catMarks (curr cat) - catMarks (prev cat)))) ∧
      (catCompleted (curr cat) - catCompleted (prev cat) = 0 ∧
          roundTo2 (catMarks (curr cat) - catMarks (prev cat)) = 0 →
        (individual_work_type_changes curr prev).lookup cat = none)) ∧
    (cat ∉ OLD_NRM_TARGET_CATEGORIES →
      (individual_work_type_changes curr prev).lookup cat = none) := by
  refine ⟨fun hmem => ⟨fun hnz => ?_, fun hz => ?_⟩, fun hnm =>
    categoryChanges_lookup_not_mem curr prev OLD_NRM_TARGET_CATEGORIES cat hnm⟩
  · rw [individual_work_type_changes,
      categoryChanges_lookup_mem curr prev OLD_NRM_TARGET_CATEGORIES
        (by decide) cat hmem, if_pos hnz]
  · rw [individual_work_type_changes,
      categoryChanges_lookup_mem curr prev OLD_NRM_TARGET_CATEGORIES
        (by decide) cat hmem,
      if_neg (by push_neg; exact hz)]

/-- Current-day demo category data: `Talab Nirman` unchanged, `Recharge Pit`
completed 7. -/
def demoCurrTypes : String → Option CatData := fun c =>
  if c = "Talab Nirman" then some ⟨some 5, some 2⟩
  else if c = "Recharge Pit" then some ⟨some 7, some 3⟩
  else none

/-- Previous-day demo category data: `Talab Nirman` unchanged, `Recharge Pit`
completed 5. -/
def demoPrevTypes : String → Option CatData := fun c =>
  if c = "Talab Nirman" then some ⟨some 5, some 2⟩
  else if c = "Recharge Pit" then some ⟨some 5, some 3⟩
  else none

/-- Witness for C7: the unchanged category is absent from the sparse map and
the changed one is present with its deltas. -/
theorem category_delta_sparsity_witness :
    (individual_work_type_changes demoCurrTypes demoPrevTypes).lookup
      "Talab Nirman" = none ∧
    (individual_work_type_changes demoCurrTypes demoPrevTypes).lookup
      "Recharge Pit" = some (2, 0) := by
  constructor
  · refine ((category_delta_sparsity demoCurrTypes demoPrevTypes
      "Talab Nirman").1 (by decide)).2 ⟨by decide, ?_⟩
    have hm : catMarks (demoCurrTypes "Talab Nirman") -
        catMarks (demoPrevTypes "Talab Nirman") = 0 := by
      norm_num [demoCurrTypes, demoPrevTypes, catMarks]
    rw [hm]
    norm_num [roundTo2, roundHalfEven]
  · have h := ((category_delta_sparsity demoCurrTypes demoPrevTypes
      "Recharge Pit").1 (by decide)).1 (Or.inl (by decide))
    refine h.trans ?_
    have hc : catCompleted (demoCurrTypes "Recharge Pit") -
        catCompleted (demoPrevTypes "Recharge Pit") = 2 := by decide
    have hm : catMarks (demoCurrTypes "Recharge Pit") -
        catMarks (demoPrevTypes "Recharge Pit") = 0 := by
      rw [show demoCurrTypes "Recharge Pit" = some ⟨some 7, some 3⟩ from rfl,
        show demoPrevTypes "Recharge Pit" = some ⟨some 5, some 3⟩ from rfl]
      norm_num [catMarks]
    rw [hc, hm]
    norm_num [roundTo2, roundHalfEven]

/-! ### Grading (`get_grade_label` / `get_grade_class`,
`jsm_dashboard_generator.py` 403-449 / 451-497) -/

/-- Python truthiness of a number: zero is falsy; NaN and ±Infinity are
truthy. -/
def pyTruthy : PyNum → Bool
  | PyNum.fin q => decide (q ≠ 0)
  | _ => true

/-- The `state_stats` dict as the grading functions read it: the values under
`'average'` and `'median'` (`none` = key absent). -/
structure StateStats where
  average : Option PyNum
  median : Option PyNum
deriving DecidableEq, Repr

/-- `state_stats.get('average', 0)`: the stored number, defaulting to the int
`0`. -/
def statGet : Option PyNum → PyNum
  | some x => x
  | none => PyNum.fin 0

/-- Python `>=` on numbers: NaN makes every comparison false; the infinities
compare as extremes. -/
def pyGeB : PyNum → PyNum → Bool
  | PyNum.nan, _ => false
  | _, PyNum.nan => false
  | PyNum.inf, _ => true
  | _, PyNum.inf => false
  | _, PyNum.ninf => true
  | PyNum.ninf, _ => false
  | PyNum.fin p, PyNum.fin q => decide (q ≤ p)

/-- Multiplication of a Python number by a positive literal constant
(`1.25`, `0.7`, `100` in the source): NaN and the infinities are absorbing. -/
def pyScale (c : ℚ) : PyNum → PyNum
  | PyNum.fin q => PyNum.fin (q * c)
  | PyNum.nan => PyNum.nan
  | PyNum.inf => PyNum.inf
  | PyNum.ninf => PyNum.ninf

/-- Python float division `x / y` for `y ≠ 0` (the callers check
`max_value == 0` first, so the zero-denominator row is unreachable and the
finite/finite row may use total rational division). -/
def pyDiv : PyNum → PyNum → PyNum
  | PyNum.nan, _ => PyNum.nan
  | _, PyNum.nan => PyNum.nan
  | PyNum.inf, PyNum.inf => PyNum.nan
  | PyNum.inf, PyNum.ninf => PyNum.nan
  | PyNum.ninf, PyNum.inf => PyNum.nan
  | PyNum.ninf, PyNum.ninf => PyNum.nan
  | PyNum.inf, PyNum.fin q => if 0 < q then PyNum.inf else PyNum.ninf
  | PyNum.ninf, PyNum.fin q => if 0 < q then PyNum.ninf else PyNum.inf
  | PyNum.fin _, PyNum.inf => PyNum.fin 0
  | PyNum.fin _, PyNum.ninf => PyNum.fin 0
  | PyNum.fin p, PyNum.fin q => PyNum.fin (p / q)

/-- `isinstance(v, (int, float))`, returning the number when it holds. -/
def isNumV : Option PyVal → Option PyNum
  | some (PyVal.num x) => some x
  | _ => none

/-- `get_grade_label(value, max_value, state_stats)`
(`jsm_dashboard_generator.py` 403-449): `"N/A"` for non-numeric inputs or
`max_value == 0`; otherwise relative grading against average/median when the
stats dict supplies truthy values for both, else percentage-of-maximum
grading with thresholds 90/70/50/30. -/
def get_grade_label (value max_value : Option PyVal)
    (state_stats : Option StateStats) : String :=
  match isNumV value, isNumV max_value with
  | some v, some m =>
    if m = PyNum.fin 0 then "N/A"
    else
      match (match state_stats with
        | some st =>
          if pyTruthy (statGet st.average) && pyTruthy (statGet st.median) then
            some (if pyGeB v (pyScale (5/4) (statGet st.average)) then "उत्कृष्ट"
              else if pyGeB v (statGet st.average) then "अच्छा"
              else if pyGeB v (statGet st.median) then "औसत"
              else if pyGeB v (pyScale (7/10) (statGet st.median)) then "निम्न"
              else "अति निम्न")
          else none
        | none => none) with
      | some lbl => lbl
      | none =>
        if pyGeB (pyScale 100 (pyDiv v m)) (PyNum.fin 90) then "उत्कृष्ट"
        else if pyGeB (pyScale 100 (pyDiv v m)) (PyNum.fin 70) then "अच्छा"
        else if pyGeB (pyScale 100 (pyDiv v m)) (PyNum.fin 50) then "औसत"
        else if pyGeB (pyScale 100 (pyDiv v m)) (PyNum.fin 30) then "निम्न"
        else "अति निम्न"
  | _, _ => "N/A"

/-- `get_grade_class(value, max_value, state_stats)`
(`jsm_dashboard_generator.py` 451-497): the CSS-class twin of
`get_grade_label`, with the same branch structure. -/
def get_grade_class (value max_value : Option PyVal)
    (state_stats : Option StateStats) : String :=
  match isNumV value, isNumV max_value with
  | some v, some m =>
    if m = PyNum.fin 0 then "grade-badge"
    else
      match (match state_stats with
        | some st =>
          if pyTruthy (statGet st.average) && pyTruthy (statGet st.median) then
            some (if pyGeB v (pyScale (5/4) (statGet st.average)) then
                "grade-badge excellent"
              else if pyGeB v (statGet st.average) then "grade-badge good"
              else if pyGeB v (statGet st.median) then "grade-badge average"
              else if pyGeB v (pyScale (7/10) (statGet st.median)) then
                "grade-badge poor"
              else "grade-badge very-poor")
          else none
        | none => none) with
      | some cls => cls
      | none =>
        if pyGeB (pyScale 100 (pyDiv v m)) (PyNum.fin 90) then "grade-badge excellent"
        else if pyGeB (pyScale 100 (pyDiv v m)) (PyNum.fin 70) then "grade-badge good"
        else if pyGeB (pyScale 100 (pyDiv v m)) (PyNum.fin 50) then "grade-badge average"
        else if pyGeB (pyScale 100 (pyDiv v m)) (PyNum.fin 30) then "grade-badge poor"
        else "grade-badge very-poor"
  | _, _ => "grade-badge"

/-- A five-leaf decision chain, the common shape of both grading bodies. -/
def chain5 (c1 c2 c3 c4 : Bool) (s1 s2 s3 s4 s5 : String) : String :=
  if c1 then s1 else if c2 then s2 else if c3 then s3 else if c4 then s4 else s5

theorem get_grade_label_na (v m : Option PyVal) (s : Option StateStats)
    (h : isNumV v = none ∨ isNumV m = none ∨ isNumV m = some (PyNum.fin 0)) :
    get_grade_label v m s = "N/A" := by
  rcases h with h | h | h
  · cases hm : isNumV m <;> simp [get_grade_label, h, hm]
  · cases hv : isNumV v <;> simp [get_grade_label, hv, h]
  · cases hv : isNumV v <;> simp [get_grade_label, hv, h]

theorem get_grade_class_na (v m : Option PyVal) (s : Option StateStats)
    (h : isNumV v = none ∨ isNumV m = none ∨ isNumV m = some (PyNum.fin 0)) :
    get_grade_class v m s = "grade-badge" := by
  rcases h with h | h | h
  · cases hm : isNumV m <;> simp [get_grade_class, h, hm]
  · cases hv : isNumV v <;> simp [get_grade_class, hv, h]
  · cases hv : isNumV v <;> simp [get_grade_class, hv, h]

theorem get_grade_label_relative_eq {v m : Option PyVal} {vn mn : PyNum}
    {st : StateStats} (hv : isNumV v = some vn) (hm : isNumV m = some mn)
    (h0 : mn ≠ PyNum.fin 0)
    (htr : (pyTruthy (statGet st.average) && pyTruthy (statGet st.median)) = true) :
    get_grade_label v m (some st) =
      chain5 (pyGeB vn (pyScale (5/4) (statGet st.average)))
        (pyGeB vn (statGet st.average)) (pyGeB vn (statGet st.median))
        (pyGeB vn (pyScale (7/10) (statGet st.median)))
        "उत्कृष्ट" "अच्छा" "औसत" "निम्न" "अति निम्न" := by
  simp only [get_grade_label, hv, hm, if_neg h0, htr, if_true, chain5]

theorem get_grade_class_relative_eq {v m : Option PyVal} {vn mn : PyNum}
    {st : StateStats} (hv : isNumV v = some vn) (hm : isNumV m = some mn)
    (h0 : mn ≠ PyNum.fin 0)
    (htr : (pyTruthy (statGet st.average) && pyTruthy (statGet st.median)) = true) :
    get_grade_class v m (some st) =
      chain5 (pyGeB vn (pyScale (5/4) (statGet st.average)))
        (pyGeB vn (statGet st.average)) (pyGeB vn (statGet st.median))
        (pyGeB vn (pyScale (7/10) (statGet st.median)))
        "grade-badge excellent" "grade-badge good" "grade-badge average"
        "grade-badge poor" "grade-badge very-poor" := by
  simp only [get_grade_class, hv, hm, if_neg h0, htr, if_true, chain5]

theorem get_grade_label_absolute_eq {v m : Option PyVal} {vn mn : PyNum}
    {s : Option StateStats} (hv : isNumV v = some vn) (hm : isNumV m = some mn)
    (h0 : mn ≠ PyNum.fin 0)
    (hs : s = none ∨ ∃ st, s = some st ∧
      (pyTruthy (statGet st.average) && pyTruthy (statGet st.median)) = false) :
    get_grade_label v m s =
      chain5 (pyGeB (pyScale 100 (pyDiv vn mn)) (PyNum.fin 90))
        (pyGeB (pyScale 100 (pyDiv vn mn)) (PyNum.fin 70))
        (pyGeB (pyScale 100 (pyDiv vn mn)) (PyNum.fin 50))
        (pyGeB (pyScale 100 (pyDiv vn mn)) (PyNum.fin 30))
        "उत्कृष्ट" "अच्छा" "औसत" "निम्न" "अति निम्न" := by
  rcases hs with rfl | ⟨st, rfl, htr⟩
  · simp only [get_grade_label, hv, hm, if_neg h0, chain5]
  · simp only [get_grade_label, hv, hm, if_neg h0, htr, Bool.false_eq_true,
      if_false, chain5]

theorem get_grade_class_absolute_eq {v m : Option PyVal} {vn mn : PyNum}
    {s : Option StateStats} (hv : isNumV v = some vn) (hm : isNumV m = some mn)
    (h0 : mn ≠ PyNum.fin 0)
    (hs : s = none ∨ ∃ st, s = some st ∧
      (pyTruthy (statGet st.average) && pyTruthy (statGet st.median)) = false) :
    get_grade_class v m s =
      chain5 (pyGeB (pyScale 100 (pyDiv vn mn)) (PyNum.fin 90))
        (pyGeB (pyScale 100 (pyDiv vn mn)) (PyNum.fin 70))
        (pyGeB (pyScale 100 (pyDiv vn mn)) (PyNum.fin 50))
        (pyGeB (pyScale 100 (pyDiv vn mn)) (PyNum.fin 30))
        "grade-badge excellent" "grade-badge good" "grade-badge average"
        "grade-badge poor" "grade-badge very-poor" := by
  rcases hs with rfl | ⟨st, rfl, htr⟩
  · simp only [get_grade_class, hv, hm, if_neg h0, chain5]
  · simp only [get_grade_class, hv, hm, if_neg h0, htr, Bool.false_eq_true,
      if_false, chain5]

theorem labelChain_iff (c1 c2 c3 c4 : Bool) :
    (chain5 c1 c2 c3 c4 "उत्कृष्ट" "अच्छा" "औसत" "निम्न" "अति निम्न" = "उत्कृष्ट" ↔
      c1 = true) ∧
    (chain5 c1 c2 c3 c4 "उत्कृष्ट" "अच्छा" "औसत" "निम्न" "अति निम्न" = "अच्छा" ↔
      c1 = false ∧ c2 = true) ∧
    (chain5 c1 c2 c3 c4 "उत्कृष्ट" "अच्छा" "औसत" "निम्न" "अति निम्न" = "औसत" ↔
      c1 = false ∧ c2 = false ∧ c3 = true) ∧
    (chain5 c1 c2 c3 c4 "उत्कृष्ट" "अच्छा" "औसत" "निम्न" "अति निम्न" = "निम्न" ↔
      c1 = false ∧ c2 = false ∧ c3 = false ∧ c4 = true) ∧
    (chain5 c1 c2 c3 c4 "उत्कृष्ट" "अच्छा" "औसत" "निम्न" "अति निम्न" = "अति निम्न" ↔
      c1 = false ∧ c2 = false ∧ c3 = false ∧ c4 = false) := by
  cases c1 <;> cases c2 <;> cases c3 <;> cases c4 <;> decide

theorem chain5_pair (c1 c2 c3 c4 : Bool) :
    (chain5 c1 c2 c3 c4 "उत्कृष्ट" "अच्छा" "औसत" "निम्न" "अति निम्न" = "उत्कृष्ट" ↔
      chain5 c1 c2 c3 c4 "grade-badge excellent" "grade-badge good"
        "grade-badge average" "grade-badge poor" "grade-badge very-poor"
        = "grade-badge excellent") ∧
    (chain5 c1 c2 c3 c4 "उत्कृष्ट" "अच्छा" "औसत" "निम्न" "अति निम्न" = "अच्छा" ↔
      chain5 c1 c2 c3 c4 "grade-badge excellent" "grade-badge good"
        "grade-badge average" "grade-badge poor" "grade-badge very-poor"
        = "grade-badge good") ∧
    (chain5 c1 c2 c3 c4 "उत्कृष्ट" "अच्छा" "औसत" "निम्न" "अति निम्न" = "औसत" ↔
      chain5 c1 c2 c3 c4 "grade-badge excellent" "grade-badge good"
        "grade-badge average" "grade-badge poor" "grade-badge very-poor"
        = "grade-badge average") ∧
    (chain5 c1 c2 c3 c4 "उत्कृष्ट" "अच्छा" "औसत" "निम्न" "अति निम्न" = "निम्न" ↔
      chain5 c1 c2 c3 c4 "grade-badge excellent" "grade-badge good"
        "grade-badge average" "grade-badge poor" "grade-badge very-poor"
        = "grade-badge poor") ∧
    (chain5 c1 c2 c3 c4 "उत्कृष्ट" "अच्छा" "औसत" "निम्न" "अति निम्न" = "अति निम्न" ↔
      chain5 c1 c2 c3 c4 "grade-badge excellent" "grade-badge good"
        "grade-badge average" "grade-badge poor" "grade-badge very-poor"
        = "grade-badge very-poor") ∧
    (chain5 c1 c2 c3 c4 "उत्कृष्ट" "अच्छा" "औसत" "निम्न" "अति निम्न" = "N/A" ↔
      chain5 c1 c2 c3 c4 "grade-badge excellent" "grade-badge good"
        "grade-badge average" "grade-badge poor" "grade-badge very-poor"
        = "grade-badge") := by
  cases c1 <;> cases c2 <;> cases c3 <;> cases c4 <;> decide

/-- C6: the grade function returns `"N/A"` for non-numeric inputs or
`max_value == 0`; when the state stats supply a truthy (present, non-zero)
average and median it grades relative to them (excellent iff
`value ≥ 1.25·average`, else good iff `value ≥ average`, else average iff
`value ≥ median`, else poor iff `value ≥ 0.7·median`, else very poor);
otherwise it grades by percentage of maximum with thresholds 90/70/50/30. -/
theorem get_grade_label_spec :
    (∀ v m s, (isNumV v = none ∨ isNumV m = none ∨ isNumV m = some (PyNum.fin 0)) →
      get_grade_label v m s = "N/A") ∧
    (∀ v m vn mn st, isNumV v = some vn → isNumV m = some mn → mn ≠ PyNum.fin 0 →
      (pyTruthy (statGet st.average) && pyTruthy (statGet st.median)) = true →
      ((get_grade_label v m (some st) = "उत्कृष्ट" ↔
          pyGeB vn (pyScale (5/4) (statGet st.average)) = true) ∧
       (get_grade_label v m (some st) = "अच्छा" ↔
          pyGeB vn (pyScale (5/4) (statGet st.average)) = false ∧
          pyGeB vn (statGet st.average) = true) ∧
       (get_grade_label v m (some st) = "औसत" ↔
          pyGeB vn (pyScale (5/4) (statGet st.average)) = false ∧
          pyGeB vn (statGet st.average) = false ∧
          pyGeB vn (statGet st.median) = true) ∧
       (get_grade_label v m (some st) = "निम्न" ↔
          pyGeB vn (pyScale (5/4) (statGet st.average)) = false ∧
          pyGeB vn (statGet st.average) = false ∧
          pyGeB vn (statGet st.median) = false ∧
          pyGeB vn (pyScale (7/10) (statGet st.median)) = true) ∧
       (get_grade_label v m (some st) = "अति निम्न" ↔
          pyGeB vn (pyScale (5/4) (statGet st.average)) = false ∧
          pyGeB vn (statGet st.average) = false ∧
          pyGeB vn (statGet st.median) = false ∧
          pyGeB vn (pyScale (7/10) (statGet st.median)) = false))) ∧
    (∀ v m s vn mn, isNumV v = some vn → isNumV m = some mn → mn ≠ PyNum.fin 0 →
      (s = none ∨ ∃ st, s = some st ∧
        (pyTruthy (statGet st.average) && pyTruthy (statGet st.median)) = false) →
      ((get_grade_label v m s = "उत्कृष्ट" ↔
          pyGeB (pyScale 100 (pyDiv vn mn)) (PyNum.fin 90) = true) ∧
       (get_grade_label v m s = "अच्छा" ↔
          pyGeB (pyScale 100 (pyDiv vn mn)) (PyNum.fin 90) = false ∧
          pyGeB (pyScale 100 (pyDiv vn mn)) (PyNum.fin 70) = true) ∧
       (get_grade_label v m s = "औसत" ↔
          pyGeB (pyScale 100 (pyDiv vn mn)) (PyNum.fin 90) = false ∧
          pyGeB (pyScale 100 (pyDiv vn mn)) (PyNum.fin 70) = false ∧
          pyGeB (pyScale 100 (pyDiv vn mn)) (PyNum.fin 50) = true) ∧
       (get_grade_label v m s = "निम्न" ↔
          pyGeB (pyScale 100 (pyDiv vn mn)) (PyNum.fin 90) = false ∧
          pyGeB (pyScale 100 (pyDiv vn mn)) (PyNum.fin 70) = false ∧
          pyGeB (pyScale 100 (pyDiv vn mn)) (PyNum.fin 50) = false ∧
          pyGeB (pyScale 100 (pyDiv vn mn)) (PyNum.fin 30) = true) ∧
       (get_grade_label v m s = "अति निम्न" ↔
          pyGeB (pyScale 100 (pyDiv vn mn)) (PyNum.fin 90) = false ∧
          pyGeB (pyScale 100 (pyDiv vn mn)) (PyNum.fin 70) = false ∧
          pyGeB (pyScale 100 (pyDiv vn mn)) (PyNum.fin 50) = false ∧
          pyGeB (pyScale 100 (pyDiv vn mn)) (PyNum.fin 30) = false))) := by
  refine ⟨get_grade_label_na, fun v m vn mn st hv hm h0 htr => ?_,
    fun v m s vn mn hv hm h0 hs => ?_⟩
  · rw [get_grade_label_relative_eq hv hm h0 htr]
    exact labelChain_iff _ _ _ _
  · rw [get_grade_label_absolute_eq hv hm h0 hs]
    exact labelChain_iff _ _ _ _

/-- Witness for C6: the spec's band-ordering examples `grade(95, 100)` and
`grade(10, 100)` with no state stats. -/
theorem get_grade_label_spec_witness :
    get_grade_label (some (PyVal.num (PyNum.fin 95)))
      (some (PyVal.num (PyNum.fin 100))) none = "उत्कृष्ट" ∧
    get_grade_label (some (PyVal.num (PyNum.fin 10)))
      (some (PyVal.num (PyNum.fin 100))) none = "अति निम्न" := by
  constructor
  · exact (get_grade_label_spec.2.2 (some (PyVal.num (PyNum.fin 95)))
      (some (PyVal.num (PyNum.fin 100))) none (PyNum.fin 95) (PyNum.fin 100)
      rfl rfl (by decide) (Or.inl rfl)).1.mpr
        (by norm_num [pyDiv, pyScale, pyGeB])
  · exact (get_grade_label_spec.2.2 (some (PyVal.num (PyNum.fin 10)))
      (some (PyVal.num (PyNum.fin 100))) none (PyNum.fin 10) (PyNum.fin 100)
      rfl rfl (by decide) (Or.inl rfl)).2.2.2.2.mpr
        ⟨by norm_num [pyDiv, pyScale, pyGeB], by norm_num [pyDiv, pyScale, pyGeB],
         by norm_num [pyDiv, pyScale, pyGeB], by norm_num [pyDiv, pyScale, pyGeB]⟩

/-- C10: the two parallel grading functions agree band for band — the Hindi
label and the CSS class always name the same of the six bands. -/
theorem grade_label_class_correspondence (v m : Option PyVal)
    (s : Option StateStats) :
    (get_grade_label v m s = "उत्कृष्ट" ↔
      get_grade_class v m s = "grade-badge excellent") ∧
    (get_grade_label v m s = "अच्छा" ↔
      get_grade_class v m s = "grade-badge good") ∧
    (get_grade_label v m s = "औसत" ↔
      get_grade_class v m s = "grade-badge average") ∧
    (get_grade_label v m s = "निम्न" ↔
      get_grade_class v m s = "grade-badge poor") ∧
    (get_grade_label v m s = "अति निम्न" ↔
      get_grade_class v m s = "grade-badge very-poor") ∧
    (get_grade_label v m s = "N/A" ↔
      get_grade_class v m s = "grade-badge") := by
  cases hv : isNumV v with
  | none =>
    rw [get_grade_label_na v m s (Or.inl hv), get_grade_class_na v m s (Or.inl hv)]
    decide
  | some vn =>
    cases hm : isNumV m with
    | none =>
      rw [get_grade_label_na v m s (Or.inr (Or.inl hm)),
        get_grade_class_na v m s (Or.inr (Or.inl hm))]
      decide
    | some mn =>
      by_cases h0 : mn = PyNum.fin 0
      · subst h0
        rw [get_grade_label_na v m s (Or.inr (Or.inr hm)),
          get_grade_class_na v m s (Or.inr (Or.inr hm))]
        decide
      · cases s with
        | none =>
          rw [get_grade_label_absolute_eq hv hm h0 (Or.inl rfl),
            get_grade_class_absolute_eq hv hm h0 (Or.inl rfl)]
          exact chain5_pair _ _ _ _
        | some st =>
          by_cases htr : (pyTruthy (statGet st.average) &&
              pyTruthy (statGet st.median)) = true
          · rw [get_grade_label_relative_eq hv hm h0 htr,
              get_grade_class_relative_eq hv hm h0 htr]
            exact chain5_pair _ _ _ _
          · have htr2 : (pyTruthy (statGet st.average) &&
                pyTruthy (statGet st.median)) = false := by
              revert htr
              cases pyTruthy (statGet st.average) && pyTruthy (statGet st.median) <;>
                simp
            rw [get_grade_label_absolute_eq hv hm h0 (Or.inr ⟨st, rfl, htr2⟩),
              get_grade_class_absolute_eq hv hm h0 (Or.inr ⟨st, rfl, htr2⟩)]
            exact chain5_pair _ _ _ _

end JgsaReport
